import Mathlib

/-!
# Verification of the `hitch` routing façade (hitch.go)

`hitch` ties a path router, a base path and an ordered middleware list
together.  Strings are modelled as `List Char` (Go strings are byte
sequences; all characters used here are single-byte).  Pure functions of
the source become Lean functions; the mutation of Go slice backing
arrays, which decides the frame claims, is modelled explicitly by a heap
of arrays in the `Mem` namespace.
-/

/-- Go `strings.HasPrefix(s, pre)`:
`len(s) >= len(pre) && s[:len(pre)] == pre`. -/
def goStartsWith (s pre : List Char) : Bool :=
  decide (pre.length ≤ s.length) && (s.take pre.length == pre)

/-- Go `strings.HasSuffix(s, suffix)`:
`len(s) >= len(suffix) && s[len(s)-len(suffix):] == suffix`. -/
def goEndsWith (s suffix : List Char) : Bool :=
  decide (suffix.length ≤ s.length) && (s.drop (s.length - suffix.length) == suffix)

/-- Go `strings.TrimSuffix(s, suffix)`: removes one trailing occurrence of
`suffix`, if present. -/
def trimSuffix (s suffix : List Char) : List Char :=
  if goEndsWith s suffix then s.take (s.length - suffix.length) else s

/-- `(h *Hitch) path(p)` from hitch.go lines 120–128:
trim one trailing `/` from the base path, give `p` a leading `/` when it
is nonempty and lacks one, and concatenate. -/
def hitchPath (basePath p : List Char) : List Char :=
  let base := trimSuffix basePath ['/']
  let p2 := if (p != []) && !goStartsWith p ['/'] then '/' :: p else p
  base ++ p2

/-- Spec-side definition (`trimTrailingSlash`): the base path with one
trailing slash removed, written independently of the source's
`strings.TrimSuffix`. -/
def trimTrailingSlash (b : List Char) : List Char :=
  match b.reverse with
  | [] => b
  | c :: rest => if c = '/' then rest.reverse else b

/-- Spec-side definition (`normalizeLeadingSlash`): path segments are
normalized to have a leading slash unless empty. -/
def normalizeLeadingSlash (p : List Char) : List Char :=
  match p with
  | [] => []
  | c :: _ => if c = '/' then p else '/' :: p

/-- Does the list end in `'/'`? Used to phrase "double slash at the join
point". -/
def lastIsSlash (l : List Char) : Bool := l.getLast? == some '/'

/-- Does the list start with `'/'`? -/
def headIsSlash (l : List Char) : Bool := l.head? == some '/'

/-- The join of `path` produces a double slash at the join point exactly
when the trimmed base ends in `'/'` and the normalized segment starts
with `'/'`. -/
def joinDoubleSlash (b p : List Char) : Bool :=
  lastIsSlash (trimSuffix b ['/']) && headIsSlash (normalizeLeadingSlash p)


/-! ## Functional model of the façade

Handlers are kept abstract as a type `H`; `Middleware` is, as in the
source, a function from handler to handler.  The shared
`httprouter.Router` is modelled as explicit state (`Router H`): a route
table plus the `HandleMethodNotAllowed` flag; registering a handler
appends one route.  The façade record holds the fields the Go struct
owns by value (`basePath`, `middlewares`); sharing of the router
reference is expressed by passing the router state separately. -/

/-- `type Middleware func(next http.Handler) http.Handler`. -/
def Middleware (H : Type) : Type := H → H

/-- The value-owned fields of `type Hitch struct`. -/
structure Hitch (H : Type) where
  basePath : List Char
  middlewares : List (Middleware H)

/-- State of the external `httprouter.Router`: route table (method,
path, handler) and the `HandleMethodNotAllowed` configuration flag. -/
structure Router (H : Type) where
  routes : List (String × List Char × H)
  handleMethodNotAllowed : Bool

/-- Modelled from the spec: `httprouter.New()` — a fresh router with an
empty route table; its default configuration handles "method not
allowed" (the flag starts `true`, which `New` below then overrides). -/
def httprouterNew (H : Type) : Router H :=
  { routes := [], handleMethodNotAllowed := true }

namespace Hitch

/-- `New()` from hitch.go lines 22–28: fresh router, with
`HandleMethodNotAllowed` set to `false`, wrapped in a façade with empty
base path and no middleware. -/
def New (H : Type) : Hitch H × Router H :=
  let r := httprouterNew H
  let r2 := { r with handleMethodNotAllowed := false }
  ({ basePath := [], middlewares := [] }, r2)

/-- `(h *Hitch) path(p)` on the façade record. -/
def path (h : Hitch H) (p : List Char) : List Char :=
  hitchPath h.basePath p

/-- `SubPath` (hitch.go lines 37–49) in the functional view: same
router (not represented here since the router is passed separately),
composed base path, and the middleware list (the element-wise copy of
the Go slice is value semantics here; the copy itself is verified in
the `Mem` model below). -/
def SubPath (h : Hitch H) (p : List Char) : Hitch H :=
  { basePath := h.path p, middlewares := h.middlewares }

/-- `WithMiddleware` (hitch.go lines 52–56): derive via `SubPath ""`,
then append the given middleware to the new façade's list. -/
def WithMiddleware (h : Hitch H) (middleware : List (Middleware H)) : Hitch H :=
  let newHitch := h.SubPath []
  { newHitch with middlewares := newHitch.middlewares ++ middleware }

/-- The folding loops of `Handle`: `for i := len(mws)-1; i >= 0; i--
{ handler = mws[i](handler) }`, i.e. the last middleware wraps first
(innermost) and the first wraps last (outermost). -/
def wrap (mws : List (Middleware H)) (handler : H) : H :=
  mws.foldr (fun m acc => m acc) handler

/-- `Handle` (hitch.go lines 69–77): wrap the handler in the per-call
middleware (last to first), then in the instance middleware (last to
first), and register the result with the router under
`(method, h.path p)`. -/
def Handle (h : Hitch H) (r : Router H) (method : String) (p : List Char)
    (handler : H) (middleware : List (Middleware H)) : Router H :=
  let handler1 := wrap middleware handler
  let handler2 := wrap h.middlewares handler1
  { r with routes := r.routes ++ [(method, h.path p, handler2)] }

/-- `HandleFunc` (hitch.go lines 80–82): direct forwarding to `Handle`. -/
def HandleFunc (h : Hitch H) (r : Router H) (method : String) (p : List Char)
    (handler : H) (middleware : List (Middleware H)) : Router H :=
  h.Handle r method p handler middleware

/-- `GET` (hitch.go lines 85–87). -/
def GET (h : Hitch H) (r : Router H) (p : List Char)
    (handler : H) (middleware : List (Middleware H)) : Router H :=
  h.Handle r "GET" p handler middleware

/-- `PUT` (hitch.go lines 90–92). -/
def PUT (h : Hitch H) (r : Router H) (p : List Char)
    (handler : H) (middleware : List (Middleware H)) : Router H :=
  h.Handle r "PUT" p handler middleware

/-- `POST` (hitch.go lines 95–97). -/
def POST (h : Hitch H) (r : Router H) (p : List Char)
    (handler : H) (middleware : List (Middleware H)) : Router H :=
  h.Handle r "POST" p handler middleware

/-- `PATCH` (hitch.go lines 100–102). -/
def PATCH (h : Hitch H) (r : Router H) (p : List Char)
    (handler : H) (middleware : List (Middleware H)) : Router H :=
  h.Handle r "PATCH" p handler middleware

/-- `DELETE` (hitch.go lines 105–107). -/
def DELETE (h : Hitch H) (r : Router H) (p : List Char)
    (handler : H) (middleware : List (Middleware H)) : Router H :=
  h.Handle r "DELETE" p handler middleware

/-- `OPTIONS` (hitch.go lines 110–112). -/
def OPTIONS (h : Hitch H) (r : Router H) (p : List Char)
    (handler : H) (middleware : List (Middleware H)) : Router H :=
  h.Handle r "OPTIONS" p handler middleware

end Hitch

/-! ### http.Handler instantiation for `WithHandlerMiddleware` and the
execution-order claims

`http.Handler.ServeHTTP(w, req)` mutates the response writer; in the
embedding a handler is a state transformer `Req → W → W` on the writer
state `W`, taking the (unmodified) request alongside. -/

/-- The closure built inside `WithHandlerMiddleware` (hitch.go lines
60–65): run `handler` on `(w, req)` first, then run `next` on the same
request and the writer state `handler` produced. -/
def handlerAsMiddleware {Req W : Type} (handler : Req → W → W) :
    Middleware (Req → W → W) :=
  fun next => fun req w => next req (handler req w)

/-- `WithHandlerMiddleware` (hitch.go lines 59–66): install the wrapped
handler as an ordinary middleware. -/
def Hitch.WithHandlerMiddleware {Req W : Type} (h : Hitch (Req → W → W))
    (handler : Req → W → W) : Hitch (Req → W → W) :=
  h.WithMiddleware [handlerAsMiddleware handler]

/-- Observable-trace handlers: the writer state is the list of events
written so far, the request carries no information. -/
abbrev THandler : Type := Unit → List String → List String

/-- A terminal handler that records the event `"handler"`. -/
def terminalHandler : THandler := fun _ log => log ++ ["handler"]

/-- A handler that records its name (used as the argument of
`WithHandlerMiddleware`). -/
def traceHandler (n : String) : THandler := fun _ log => log ++ [n]

/-- A middleware that records `pre:n`, delegates, then records
`post:n` — making the execution and unwinding order observable. -/
def traceMW (n : String) : Middleware THandler :=
  fun next => fun u log => next u (log ++ ["pre:" ++ n]) ++ ["post:" ++ n]

/-! ### Request parameters -/

/-- An inbound request, reduced to the part `Params` reads: the
parameter bindings the external router attached to the request context
during dispatch, if any. -/
structure Request where
  context : Option (List (String × String))

/-- Modelled from the spec and httprouter's documented contract:
`httprouter.ParamsFromContext` type-asserts the params value out of the
context; a failed assertion yields the zero value, i.e. the empty
parameter collection. -/
def ParamsFromContext (ctx : Option (List (String × String))) :
    List (String × String) :=
  match ctx with
  | some ps => ps
  | none => []

/-- `Params` (hitch.go lines 116–118): pass-through to
`httprouter.ParamsFromContext` on the request's context. -/
def Params (req : Request) : List (String × String) :=
  ParamsFromContext req.context

/-! ### Dispatch outcome of the external router -/

/-- Outcome of routing one request. -/
inductive Outcome (H : Type) where
  | found (handler : H)
  | notFound
  | methodNotAllowed
deriving DecidableEq

/-- Modelled from the spec: the external router's dispatch. A route
matching `(method, path)` exactly wins; otherwise, if some other method
is registered at the path and `HandleMethodNotAllowed` is set, the
outcome is "method not allowed"; otherwise "not found". -/
def dispatch (r : Router H) (method : String) (p : List Char) : Outcome H :=
  match r.routes.find? (fun e => e.1 == method && e.2.1 == p) with
  | some e => Outcome.found e.2.2
  | none =>
      if r.handleMethodNotAllowed && r.routes.any (fun e => e.2.1 == p) then
        Outcome.methodNotAllowed
      else
        Outcome.notFound

/-! ## Memory model of the Go slices

The frame claims (copy-on-derive, "parent unchanged") are about Go
slice aliasing, so here the middleware list is a slice into a heap of
backing arrays.  A slice is `(arr, len, cap)`; no slicing expressions
occur in the source, so the offset is always zero and omitted.  A heap
is the list of allocated backing arrays (array id = index); an array is
stored as the list of elements written so far (writes in this program
are always sequential, so storage length never falls below any live
slice's `len`). -/

namespace Mem

/-- A Go slice header: backing array id, length, capacity. -/
structure Slice where
  arr : Nat
  len : Nat
  cap : Nat
deriving DecidableEq

/-- The zero value of a slice type (`nil`). -/
def nilSlice : Slice := ⟨0, 0, 0⟩

/-- The heap of backing arrays. -/
abbrev Heap (α : Type) : Type := List (List α)

/-- The elements a slice denotes: the first `len` cells of its backing
array. -/
def readSlice (h : Heap α) (s : Slice) : List α :=
  (h.getD s.arr []).take s.len

/-- Go `append(s, xs...)`: if the extra elements fit in the spare
capacity they are written into the backing array in place; otherwise a
fresh array is allocated holding the old elements followed by the new
ones (the exact grown capacity follows Go's doubling rule; nothing here
depends on it). -/
def goAppend (h : Heap α) (s : Slice) (xs : List α) : Heap α × Slice :=
  if s.len + xs.length ≤ s.cap then
    let stored := h.getD s.arr []
    let stored2 := stored.take s.len ++ xs ++ stored.drop (s.len + xs.length)
    (h.set s.arr stored2, ⟨s.arr, s.len + xs.length, s.cap⟩)
  else
    let newCap := max (s.len + xs.length) (2 * s.cap)
    (h ++ [readSlice h s ++ xs], ⟨h.length, s.len + xs.length, newCap⟩)

/-- The façade record in the memory model: shared router reference (an
id), owned base path, and the middleware slice. -/
structure Hitch (α : Type) where
  router : Nat
  basePath : List Char
  middlewares : Slice

/-- A façade is well formed in a heap when its middleware slice is
either empty or denotes a live backing array long enough for its
length. -/
def wf (h : Heap α) (x : Hitch α) : Prop :=
  x.middlewares.len = 0 ∨
    (x.middlewares.arr < h.length ∧
      x.middlewares.len ≤ (h.getD x.middlewares.arr []).length)

/-- `SubPath` (hitch.go lines 37–49) in the memory model: when the
middleware list is nonempty, `make` a fresh array of the same length
and `copy` the elements into it (one allocation holding the copied
contents); a `nil` list stays `nil`.  The new façade shares the router
id and composes the base path. -/
def SubPath (h : Heap α) (x : Hitch α) (p : List Char) : Heap α × Hitch α :=
  if 0 < x.middlewares.len then
    let contents := readSlice h x.middlewares
    (h ++ [contents],
      ⟨x.router, hitchPath x.basePath p,
        ⟨h.length, x.middlewares.len, x.middlewares.len⟩⟩)
  else
    (h, ⟨x.router, hitchPath x.basePath p, nilSlice⟩)

/-- `WithMiddleware` (hitch.go lines 52–56) in the memory model:
`newHitch := h.SubPath("")`, then
`newHitch.middlewares = append(newHitch.middlewares, middleware...)`. -/
def WithMiddleware (h : Heap α) (x : Hitch α) (middleware : List α) :
    Heap α × Hitch α :=
  let hc := SubPath h x []
  let ap := goAppend hc.1 hc.2.middlewares middleware
  (ap.1, ⟨hc.2.router, hc.2.basePath, ap.2⟩)

/-- The observable value of a façade: its base path together with the
middleware elements its slice denotes. -/
structure View (α : Type) where
  basePath : List Char
  middlewares : List α
deriving DecidableEq

/-- Abstraction from the memory model to the observable view. -/
def view (h : Heap α) (x : Hitch α) : View α :=
  ⟨x.basePath, readSlice h x.middlewares⟩

/-- Modelled from the spec: sub-scoping at the view level — base path
composed, middleware list carried over by value. -/
def subPathSpec (v : View α) (p : List Char) : View α :=
  ⟨hitchPath v.basePath p, v.middlewares⟩

/-- Modelled from the spec: `withMiddleware` as `subPath ""` followed
by appending the given middleware values, in argument order, to the end
of the copied list. -/
def withMiddlewareSpec (v : View α) (middleware : List α) : View α :=
  let c := subPathSpec v []
  ⟨c.basePath, c.middlewares ++ middleware⟩

end Mem

-- Basic bridging lemmas between the Go-string functions and the
-- spec-side normal forms.

theorem goEndsWith_append_single (l : List Char) (a c : Char) :
    goEndsWith (l ++ [a]) [c] = (a == c) := by
  have hlen : (l ++ [a]).length - 1 = l.length := by simp
  unfold goEndsWith
  rw [List.length_singleton, hlen, List.drop_left]
  simp

theorem trimSuffix_slash_eq (b : List Char) :
    trimSuffix b ['/'] = trimTrailingSlash b := by
  induction b using List.reverseRecOn with
  | nil => rfl
  | append_singleton l a _ =>
    by_cases ha : a = '/'
    · subst ha
      have h1 : goEndsWith (l ++ ['/']) ['/'] = true := by
        rw [goEndsWith_append_single]; simp
      have h2 : (l ++ ['/']).length - ([('/' : Char)]).length = l.length := by simp
      simp [trimSuffix, h1, h2, trimTrailingSlash, List.take_left, List.reverse_append]
    · have h1 : goEndsWith (l ++ [a]) ['/'] = false := by
        rw [goEndsWith_append_single]; simp [ha]
      simp [trimSuffix, h1, trimTrailingSlash, List.reverse_append, ha]

theorem hitchPath_eq (b p : List Char) :
    hitchPath b p = trimTrailingSlash b ++ normalizeLeadingSlash p := by
  rw [hitchPath, trimSuffix_slash_eq]
  congr 1
  match p with
  | [] => rfl
  | c :: t =>
    by_cases hc : c = '/'
    · subst hc; simp [goStartsWith, normalizeLeadingSlash]
    · simp [goStartsWith, normalizeLeadingSlash, hc]


namespace Mem

theorem set_getD_self {β : Type} (l : List β) (i : Nat) (d : β) :
    l.set i (l.getD i d) = l := by
  induction l generalizing i with
  | nil => rfl
  | cons a t ih =>
    cases i with
    | zero => simp [List.getD_cons_zero]
    | succ n => rw [List.getD_cons_succ, List.set_cons_succ, ih]

theorem readSlice_append {α : Type} (h t : Heap α) (s : Slice)
    (hs : s.arr < h.length) : readSlice (h ++ t) s = readSlice h s := by
  unfold readSlice
  rw [List.getD_append _ _ _ _ hs]

theorem readSlice_len_zero {α : Type} (h : Heap α) (s : Slice)
    (hs : s.len = 0) : readSlice h s = [] := by
  unfold readSlice
  rw [hs, List.take_zero]

theorem readSlice_length {α : Type} (h : Heap α) (s : Slice)
    (hs : s.len ≤ (h.getD s.arr []).length) :
    (readSlice h s).length = s.len := by
  unfold readSlice
  rw [List.length_take]
  exact Nat.min_eq_left hs

theorem subPath_pos {α : Type} (h : Heap α) (x : Hitch α) (p : List Char)
    (hpos : 0 < x.middlewares.len) :
    SubPath h x p =
      (h ++ [readSlice h x.middlewares],
        ⟨x.router, hitchPath x.basePath p,
          ⟨h.length, x.middlewares.len, x.middlewares.len⟩⟩) := by
  unfold SubPath
  rw [if_pos hpos]

theorem subPath_zero {α : Type} (h : Heap α) (x : Hitch α) (p : List Char)
    (hz : x.middlewares.len = 0) :
    SubPath h x p = (h, ⟨x.router, hitchPath x.basePath p, nilSlice⟩) := by
  unfold SubPath
  rw [if_neg (by omega)]

theorem goAppend_nil {α : Type} (h : Heap α) (s : Slice)
    (hc : s.len ≤ s.cap) :
    goAppend h s [] = (h, ⟨s.arr, s.len, s.cap⟩) := by
  unfold goAppend
  rw [if_pos (by simpa using hc)]
  simp only [List.length_nil, Nat.add_zero, List.append_nil, List.take_append_drop]
  rw [set_getD_self]

theorem goAppend_grow {α : Type} (h : Heap α) (s : Slice) (xs : List α)
    (hc : s.cap < s.len + xs.length) :
    goAppend h s xs =
      (h ++ [readSlice h s ++ xs],
        ⟨h.length, s.len + xs.length, max (s.len + xs.length) (2 * s.cap)⟩) := by
  unfold goAppend
  rw [if_neg (by omega)]

end Mem

namespace Mem

theorem readSlice_fresh {α : Type} (h : Heap α) (c : List α) (n cap : Nat)
    (hn : c.length ≤ n) :
    readSlice (h ++ [c]) ⟨h.length, n, cap⟩ = c := by
  unfold readSlice
  rw [List.getD_append_right _ _ _ _ (Nat.le_refl _)]
  simp [List.take_of_length_le hn]

end Mem

theorem goEndsWith_append_self (l t : List Char) :
    goEndsWith (l ++ t) t = true := by
  have hlen : (l ++ t).length - t.length = l.length := by simp
  unfold goEndsWith
  rw [hlen, List.drop_left]
  simp

theorem lastIsSlash_append_single (l : List Char) (a : Char) :
    lastIsSlash (l ++ [a]) = (a == '/') := by
  simp [lastIsSlash]

theorem no_trailing_slash_of_no_double_slash (b : List Char)
    (hb : goEndsWith b ['/', '/'] = false) :
    lastIsSlash (trimSuffix b ['/']) = false := by
  rw [trimSuffix_slash_eq]
  induction b using List.reverseRecOn with
  | nil => rfl
  | append_singleton l a _ =>
    by_cases ha : a = '/'
    · subst ha
      have ht : trimTrailingSlash (l ++ ['/']) = l := by
        simp [trimTrailingSlash, List.reverse_append]
      rw [ht]
      induction l using List.reverseRecOn with
      | nil => rfl
      | append_singleton l2 a2 _ =>
        by_cases ha2 : a2 = '/'
        · subst ha2
          exfalso
          have hassoc : ((l2 ++ ['/']) ++ ['/']) = l2 ++ ['/', '/'] := by simp
          rw [hassoc, goEndsWith_append_self] at hb
          simp at hb
        · rw [lastIsSlash_append_single]
          simp [ha2]
    · have ht : trimTrailingSlash (l ++ [a]) = l ++ [a] := by
        simp [trimTrailingSlash, List.reverse_append, ha]
      rw [ht, lastIsSlash_append_single]
      simp [ha]

/-! ## Claim theorems -/

/-- C1: `Handle` folds the per-call middleware `[C, D]` from last to
first around the handler and then the instance middleware `[A, B]` from
last to first around that, so the registered handler is
`A (B (C (D handler)))` — all per-call middleware nest inside all
instance middleware; on the observable-trace instantiation that
composition executes `A, B, C, D, handler` in order and unwinds
`D, C, B, A`. -/
theorem c1_handle_middleware_order {H : Type} (A B C D : Middleware H)
    (handler : H) (base p : List Char) (method : String) (r : Router H) :
    (Hitch.Handle ⟨base, [A, B]⟩ r method p handler [C, D]).routes
        = r.routes ++ [(method, hitchPath base p, A (B (C (D handler))))]
    ∧ traceMW "A" (traceMW "B" (traceMW "C" (traceMW "D" terminalHandler))) () []
        = ["pre:A", "pre:B", "pre:C", "pre:D", "handler",
           "post:D", "post:C", "post:B", "post:A"] :=
  ⟨rfl, rfl⟩

/-- C3 counterexample: for base path `"a//"` and segment `"x"`, `path`
yields `"a//x"`, a double slash at the join point, refuting the
universally quantified claim. -/
theorem c3_counterexample :
    joinDoubleSlash "a//".data "x".data = true
    ∧ hitchPath "a//".data "x".data = "a//x".data :=
  ⟨by decide, by decide⟩

/-- C3 (amended): provided the base path does not end in a double
slash, `path` never produces a double slash at the join point; a
segment's required leading slash is never dropped (a nonempty segment
always joins with exactly one leading slash, and one already present is
kept); and for an empty segment the result is `trimTrailingSlash b`. -/
theorem c3_join_no_double_slash (b p : List Char) :
    (goEndsWith b ['/', '/'] = false → joinDoubleSlash b p = false)
    ∧ (headIsSlash p = true → normalizeLeadingSlash p = p)
    ∧ (p ≠ [] → headIsSlash (normalizeLeadingSlash p) = true)
    ∧ hitchPath b [] = trimSuffix b ['/'] := by
  refine ⟨?_, ?_, ?_, ?_⟩
  · intro hb
    unfold joinDoubleSlash
    rw [no_trailing_slash_of_no_double_slash b hb]
    rfl
  · intro hp
    match p with
    | [] => rfl
    | c :: t =>
      have hc : c = '/' := by simpa [headIsSlash] using hp
      simp [normalizeLeadingSlash, hc]
  · intro hp
    match p with
    | [] => exact absurd rfl hp
    | c :: t =>
      by_cases hc : c = '/'
      · simp [normalizeLeadingSlash, headIsSlash, hc]
      · simp [normalizeLeadingSlash, headIsSlash, hc]
  · simp [hitchPath]

/-- C3 witness: at base `"/v1"` (no trailing double slash) and segment
`"users"`, the hypotheses hold and the join has no double slash. -/
theorem c3_join_no_double_slash_witness :
    goEndsWith "/v1".data ['/', '/'] = false
    ∧ joinDoubleSlash "/v1".data "users".data = false
    ∧ "users".data ≠ ([] : List Char)
    ∧ headIsSlash (normalizeLeadingSlash "users".data) = true :=
  ⟨by decide,
   (c3_join_no_double_slash "/v1".data "users".data).1 (by decide),
   by decide,
   (c3_join_no_double_slash "/v1".data "users".data).2.2.1 (by decide)⟩

/-- C4 counterexample: a façade with base path `"/v1/"` and the empty
segment — `path` returns `"/v1"`, not the base path unchanged. -/
theorem c4_counterexample :
    hitchPath "/v1/".data "".data ≠ "/v1/".data := by decide

/-- C4 (amended): `path p` returns
`trimTrailingSlash basePath ++ normalizeLeadingSlash p`; for the empty
segment it returns `trimTrailingSlash basePath` (the base path with one
trailing slash removed, not necessarily the base path unchanged); and
`Handle` with an empty path registers exactly at
`trimTrailingSlash basePath`. -/
theorem c4_path_composition {H : Type} (f : Hitch H) (p : List Char)
    (r : Router H) (method : String) (handler : H) :
    f.path p = trimTrailingSlash f.basePath ++ normalizeLeadingSlash p
    ∧ f.path [] = trimTrailingSlash f.basePath
    ∧ (Hitch.Handle f r method [] handler []).routes
        = r.routes
          ++ [(method, trimTrailingSlash f.basePath,
                Hitch.wrap f.middlewares handler)] := by
  have hempty : f.path [] = trimTrailingSlash f.basePath := by
    rw [Hitch.path, hitchPath_eq]
    simp [normalizeLeadingSlash]
  refine ⟨hitchPath_eq f.basePath p, hempty, ?_⟩
  show r.routes ++ [(method, f.path [], _)] = _
  rw [hempty]
  rfl

/-- C6: the middleware produced by `WithHandlerMiddleware` first runs
the wrapped handler to completion on the original request, and only
then invokes the next handler of the chain with the same request and
the writer state the handler produced; `WithHandlerMiddleware` installs
exactly that middleware, and in a trace chain the handler's event
appears strictly before the next element's. -/
theorem c6_with_handler_middleware {Req W : Type} (handler : Req → W → W)
    (f : Hitch (Req → W → W)) (next : Req → W → W) (req : Req) (w : W) :
    (f.WithHandlerMiddleware handler).middlewares
        = f.middlewares ++ [handlerAsMiddleware handler]
    ∧ handlerAsMiddleware handler next req w = next req (handler req w)
    ∧ Hitch.wrap [traceMW "A", handlerAsMiddleware (traceHandler "H"), traceMW "B"]
        terminalHandler () []
        = ["pre:A", "H", "pre:B", "handler", "post:B", "post:A"] :=
  ⟨rfl, rfl, rfl⟩

/-- C9: `Params` is total; it returns the empty collection when the
router attached no bindings to the request context, and exactly the
attached bindings otherwise (e.g. `:id` bound to `"42"`). -/
theorem c9_params_total (req : Request) :
    (req.context = none → Params req = [])
    ∧ (∀ ps, req.context = some ps → Params req = ps)
    ∧ Params ⟨some [("id", "42")]⟩ = [("id", "42")]
    ∧ Params ⟨none⟩ = [] := by
  refine ⟨?_, ?_, rfl, rfl⟩
  · intro hc
    simp [Params, ParamsFromContext, hc]
  · intro ps hc
    simp [Params, ParamsFromContext, hc]

/-- C9 witness: a request with no attached bindings yields the empty
collection. -/
theorem c9_params_total_witness :
    (Request.mk none).context = none ∧ Params ⟨none⟩ = [] :=
  ⟨rfl, (c9_params_total ⟨none⟩).1 rfl⟩

/-- C10: `Handle` changes only the router state, by appending exactly
the one new route (base path, middleware list and the router's
configuration flag are untouched), and every verb convenience form and
`HandleFunc` is a direct forwarding call to `Handle` with the method
fixed. -/
theorem c10_registration_frame {H : Type} (f : Hitch H) (r : Router H)
    (method : String) (p : List Char) (handler : H)
    (extra : List (Middleware H)) :
    Hitch.Handle f r method p handler extra
        = { r with routes := r.routes
              ++ [(method, hitchPath f.basePath p,
                    Hitch.wrap f.middlewares (Hitch.wrap extra handler))] }
    ∧ Hitch.HandleFunc f r method p handler extra
        = Hitch.Handle f r method p handler extra
    ∧ Hitch.GET f r p handler extra = Hitch.Handle f r "GET" p handler extra
    ∧ Hitch.PUT f r p handler extra = Hitch.Handle f r "PUT" p handler extra
    ∧ Hitch.POST f r p handler extra = Hitch.Handle f r "POST" p handler extra
    ∧ Hitch.PATCH f r p handler extra = Hitch.Handle f r "PATCH" p handler extra
    ∧ Hitch.DELETE f r p handler extra
        = Hitch.Handle f r "DELETE" p handler extra
    ∧ Hitch.OPTIONS f r p handler extra
        = Hitch.Handle f r "OPTIONS" p handler extra
    ∧ (Hitch.Handle f r method p handler extra).handleMethodNotAllowed
        = r.handleMethodNotAllowed :=
  ⟨rfl, rfl, rfl, rfl, rfl, rfl, rfl, rfl, rfl⟩

/-- C8: `New` wraps a fresh router whose route table is empty and whose
`HandleMethodNotAllowed` flag is cleared at construction, so a request
to a registered path with a non-matching method dispatches to
"not found"; under the external router's default configuration the same
situation would dispatch to "method not allowed". -/
theorem c8_new_not_found {H : Type} (method m2 : String) (p : List Char)
    (handler : H) (hne : m2 ≠ method) :
    (Hitch.New H).2.handleMethodNotAllowed = false
    ∧ (Hitch.New H).2.routes = []
    ∧ dispatch (Hitch.Handle (Hitch.New H).1 (Hitch.New H).2 method p handler [])
        m2 (hitchPath [] p) = Outcome.notFound
    ∧ dispatch (Hitch.Handle (Hitch.New H).1 (httprouterNew H) method p handler [])
        m2 (hitchPath [] p) = Outcome.methodNotAllowed := by
  have hne2 : (method == m2) = false := by
    simp [Ne.symm hne]
  refine ⟨rfl, rfl, ?_, ?_⟩
  · simp [dispatch, Hitch.Handle, Hitch.New, httprouterNew, Hitch.path,
      List.find?, hne2]
  · simp [dispatch, Hitch.Handle, Hitch.New, httprouterNew, Hitch.path,
      List.find?, List.any, hne2]

/-- C8 witness: a `POST` to a path registered only for `GET` on a
freshly constructed façade yields "not found". -/
theorem c8_new_not_found_witness :
    ("POST" : String) ≠ "GET"
    ∧ dispatch
        (Hitch.Handle (Hitch.New Unit).1 (Hitch.New Unit).2 "GET" "/x".data () [])
        "POST" (hitchPath [] "/x".data) = Outcome.notFound :=
  ⟨by decide,
   (c8_new_not_found "GET" "POST" "/x".data () (by decide)).2.2.1⟩

/-- C2: after `child := parent.SubPath p` followed by
`child.WithMiddleware [m]`, the parent's middleware list is unchanged
in length and contents, because `SubPath` copies the middleware into a
freshly allocated backing array (distinct from the parent's). -/
theorem c2_parent_middleware_frame {α : Type} (h : Mem.Heap α)
    (x : Mem.Hitch α) (p : List Char) (m : α) (hwf : Mem.wf h x) :
    Mem.readSlice
        (Mem.WithMiddleware (Mem.SubPath h x p).1 (Mem.SubPath h x p).2 [m]).1
        x.middlewares
      = Mem.readSlice h x.middlewares
    ∧ (0 < x.middlewares.len →
        (Mem.SubPath h x p).2.middlewares.arr ≠ x.middlewares.arr) := by
  by_cases hpos : 0 < x.middlewares.len
  · have harr : x.middlewares.arr < h.length := by
      rcases hwf with hz | ⟨h1, _⟩
      · omega
      · exact h1
    rw [Mem.subPath_pos h x p hpos]
    constructor
    · simp only [Mem.WithMiddleware]
      rw [Mem.subPath_pos (h ++ [Mem.readSlice h x.middlewares])
        ⟨x.router, hitchPath x.basePath p,
          ⟨h.length, x.middlewares.len, x.middlewares.len⟩⟩ [] hpos]
      rw [Mem.goAppend_grow _ _ _ (by simp)]
      simp only [List.append_assoc]
      rw [Mem.readSlice_append _ _ _ harr]
    · exact fun _ => (Nat.ne_of_lt harr).symm
  · have hz : x.middlewares.len = 0 := by omega
    constructor
    · rw [Mem.readSlice_len_zero _ _ hz, Mem.readSlice_len_zero _ _ hz]
    · intro hcontra
      omega

/-- C2 witness: a concrete parent with one middleware in the heap —
after deriving and adding a middleware on the child, the parent's list
still reads the same. -/
theorem c2_parent_middleware_frame_witness :
    Mem.wf ([[3]] : Mem.Heap Nat) ⟨0, "/a".data, ⟨0, 1, 1⟩⟩
    ∧ Mem.readSlice
        (Mem.WithMiddleware
          (Mem.SubPath [[3]] (⟨0, "/a".data, ⟨0, 1, 1⟩⟩ : Mem.Hitch Nat) "/b".data).1
          (Mem.SubPath [[3]] (⟨0, "/a".data, ⟨0, 1, 1⟩⟩ : Mem.Hitch Nat) "/b".data).2
          [4]).1
        (⟨0, 1, 1⟩ : Mem.Slice)
      = Mem.readSlice [[3]] (⟨0, 1, 1⟩ : Mem.Slice) := by
  have hw : Mem.wf ([[3]] : Mem.Heap Nat) ⟨0, "/a".data, ⟨0, 1, 1⟩⟩ := by
    unfold Mem.wf
    right
    exact ⟨by decide, by decide⟩
  exact ⟨hw,
    (c2_parent_middleware_frame [[3]] ⟨0, "/a".data, ⟨0, 1, 1⟩⟩ "/b".data 4 hw).1⟩

/-- C5: `SubPath` keeps the same router reference, composes the base
path with the segment (it does not replace it), and the derived
middleware slice denotes the same elements but lives in a fresh backing
array; concretely a parent at `"/v1/"` derived with `"/users"` sits at
`"/v1/users"`. -/
theorem c5_subpath_derivation {α : Type} (h : Mem.Heap α) (x : Mem.Hitch α)
    (p : List Char) (hwf : Mem.wf h x) :
    (Mem.SubPath h x p).2.router = x.router
    ∧ (Mem.SubPath h x p).2.basePath = hitchPath x.basePath p
    ∧ Mem.readSlice (Mem.SubPath h x p).1 (Mem.SubPath h x p).2.middlewares
        = Mem.readSlice h x.middlewares
    ∧ (0 < x.middlewares.len →
        (Mem.SubPath h x p).2.middlewares.arr ≠ x.middlewares.arr)
    ∧ (Mem.SubPath ([] : Mem.Heap α) ⟨0, "/v1/".data, Mem.nilSlice⟩
          "/users".data).2.basePath = "/v1/users".data := by
  have hconc : (Mem.SubPath ([] : Mem.Heap α) ⟨0, "/v1/".data, Mem.nilSlice⟩
      "/users".data).2.basePath = "/v1/users".data := by
    rw [Mem.subPath_zero _ _ _ rfl]
    rfl
  by_cases hpos : 0 < x.middlewares.len
  · obtain hz | ⟨harr, hlen⟩ := hwf
    · omega
    · rw [Mem.subPath_pos h x p hpos]
      refine ⟨rfl, rfl, ?_, fun _ => (Nat.ne_of_lt harr).symm, hconc⟩
      exact Mem.readSlice_fresh h _ _ _
        (le_of_eq (Mem.readSlice_length h x.middlewares hlen))
  · have hz : x.middlewares.len = 0 := by omega
    rw [Mem.subPath_zero h x p hz]
    refine ⟨rfl, rfl, ?_, fun hc => absurd hc (by omega), hconc⟩
    rw [Mem.readSlice_len_zero _ _ rfl, Mem.readSlice_len_zero _ _ hz]

/-- C5 witness: a concrete parent with two middleware elements. -/
theorem c5_subpath_derivation_witness :
    Mem.wf ([[11, 22]] : Mem.Heap Nat) ⟨3, "/v1".data, ⟨0, 2, 2⟩⟩
    ∧ Mem.readSlice
        (Mem.SubPath [[11, 22]] (⟨3, "/v1".data, ⟨0, 2, 2⟩⟩ : Mem.Hitch Nat)
          "/a".data).1
        (Mem.SubPath [[11, 22]] (⟨3, "/v1".data, ⟨0, 2, 2⟩⟩ : Mem.Hitch Nat)
          "/a".data).2.middlewares
      = Mem.readSlice [[11, 22]] (⟨0, 2, 2⟩ : Mem.Slice) := by
  have hw : Mem.wf ([[11, 22]] : Mem.Heap Nat) ⟨3, "/v1".data, ⟨0, 2, 2⟩⟩ := by
    unfold Mem.wf
    right
    exact ⟨by decide, by decide⟩
  exact ⟨hw,
    (c5_subpath_derivation [[11, 22]] ⟨3, "/v1".data, ⟨0, 2, 2⟩⟩ "/a".data hw).2.2.1⟩

/-- C7 counterexample: for a receiver with base path `"/v1/"`, the
façade returned by `WithMiddleware` has base path `"/v1"` — deriving
via `SubPath ""` trims the trailing slash, so the derived façade is not
"at the same base path" as the receiver. -/
theorem c7_counterexample :
    (Mem.WithMiddleware ([] : Mem.Heap Nat) ⟨0, "/v1/".data, Mem.nilSlice⟩
        [5]).2.basePath ≠ "/v1/".data := by
  intro hcontra
  have : hitchPath "/v1/".data [] = "/v1/".data := hcontra
  simp [hitchPath, trimSuffix, goEndsWith] at this

/-- C7 (amended): `WithMiddleware` is equivalent to `SubPath ""` (a
derived façade at the base path with one trailing slash trimmed — not
always the identical base path — sharing the router reference, with a
copied middleware list) followed by appending the given middleware, in
argument order, to the end of the copied list; the receiver is not
mutated (its middleware list reads the same afterwards). -/
theorem c7_with_middleware_refinement {α : Type} (h : Mem.Heap α)
    (x : Mem.Hitch α) (mws : List α) (hwf : Mem.wf h x) :
    Mem.view (Mem.WithMiddleware h x mws).1 (Mem.WithMiddleware h x mws).2
        = Mem.withMiddlewareSpec (Mem.view h x) mws
    ∧ Mem.view (Mem.WithMiddleware h x mws).1 x = Mem.view h x
    ∧ (Mem.WithMiddleware h x mws).2.router = x.router := by
  by_cases hpos : 0 < x.middlewares.len
  · obtain hz | ⟨harr, hlen⟩ := hwf
    · omega
    have hc0 : (Mem.readSlice h x.middlewares).length = x.middlewares.len :=
      Mem.readSlice_length h x.middlewares hlen
    simp only [Mem.WithMiddleware]
    rw [Mem.subPath_pos h x [] hpos]
    rcases eq_or_ne mws [] with hm | hm
    · subst hm
      rw [Mem.goAppend_nil _ _ (Nat.le_refl _)]
      refine ⟨?_, ?_, rfl⟩
      · simp only [Mem.view, Mem.withMiddlewareSpec, Mem.subPathSpec]
        rw [Mem.readSlice_fresh h _ _ _ (le_of_eq hc0)]
        simp
      · simp only [Mem.view]
        rw [Mem.readSlice_append _ _ _ harr]
    · have hlt : x.middlewares.len < x.middlewares.len + mws.length := by
        have := List.length_pos.mpr hm
        omega
      rw [Mem.goAppend_grow _ _ _ hlt]
      rw [Mem.readSlice_fresh h _ _ _ (le_of_eq hc0)]
      refine ⟨?_, ?_, rfl⟩
      · simp only [Mem.view, Mem.withMiddlewareSpec, Mem.subPathSpec]
        rw [Mem.readSlice_fresh (h ++ [Mem.readSlice h x.middlewares]) _ _ _
          (by simp [hc0])]
      · simp only [Mem.view]
        simp only [List.append_assoc]
        rw [Mem.readSlice_append _ _ _ harr]
  · have hz : x.middlewares.len = 0 := by omega
    simp only [Mem.WithMiddleware]
    rw [Mem.subPath_zero h x [] hz]
    rcases eq_or_ne mws [] with hm | hm
    · subst hm
      rw [Mem.goAppend_nil _ _ (Nat.le_refl _)]
      refine ⟨?_, rfl, rfl⟩
      simp only [Mem.view, Mem.withMiddlewareSpec, Mem.subPathSpec]
      rw [Mem.readSlice_len_zero _ _ rfl, Mem.readSlice_len_zero _ _ hz]
      simp
    · have hlt : Mem.nilSlice.cap < Mem.nilSlice.len + mws.length := by
        have := List.length_pos.mpr hm
        simpa [Mem.nilSlice] using this
      rw [Mem.goAppend_grow _ _ _ hlt]
      rw [Mem.readSlice_len_zero h Mem.nilSlice rfl]
      refine ⟨?_, ?_, rfl⟩
      · simp only [Mem.view, Mem.withMiddlewareSpec, Mem.subPathSpec]
        rw [Mem.readSlice_fresh h _ _ _ (by simp [Mem.nilSlice])]
        rw [Mem.readSlice_len_zero _ _ hz]
      · simp only [Mem.view]
        rw [Mem.readSlice_len_zero _ _ hz, Mem.readSlice_len_zero _ _ hz]

/-- C7 witness: a concrete receiver with two middleware elements and
one appended. -/
theorem c7_with_middleware_refinement_witness :
    Mem.wf ([[1, 2]] : Mem.Heap Nat) ⟨7, "/v1".data, ⟨0, 2, 2⟩⟩
    ∧ Mem.view
        (Mem.WithMiddleware [[1, 2]] (⟨7, "/v1".data, ⟨0, 2, 2⟩⟩ : Mem.Hitch Nat)
          [9]).1
        (Mem.WithMiddleware [[1, 2]] (⟨7, "/v1".data, ⟨0, 2, 2⟩⟩ : Mem.Hitch Nat)
          [9]).2
      = Mem.withMiddlewareSpec (Mem.view [[1, 2]] ⟨7, "/v1".data, ⟨0, 2, 2⟩⟩) [9] := by
  have hw : Mem.wf ([[1, 2]] : Mem.Heap Nat) ⟨7, "/v1".data, ⟨0, 2, 2⟩⟩ := by
    unfold Mem.wf
    right
    exact ⟨by decide, by decide⟩
  exact ⟨hw,
    (c7_with_middleware_refinement [[1, 2]] ⟨7, "/v1".data, ⟨0, 2, 2⟩⟩ [9] hw).1⟩
